import Mathlib

/-!
Verification of the data-normalization and metric-derivation pipeline of a
financial-dashboard repository (`src/data_acquisition/retrieve_data.py`).

A pandas `DataFrame` is embedded as a row index together with an ordered list
of named columns; a cell is `Option ℚ` where `none` stands for a missing value
(NaN/NaT).  Floating-point arithmetic is abstracted by exact rationals.  The
rolling standard deviation requires a square root, which is not rational, so
the metric calculator is parameterized by the aggregation function `stdFn`
that pandas applies to each full window; every statement proved below holds
for an arbitrary such aggregator.

Timestamps are modelled as rational day counts since the Unix epoch; the
calendar attributes `dayofweek` (Monday = 0) and `month` (1..12) are computed
from the day count by the standard civil-calendar conversion.
-/

namespace FinDash

/-- Forward fill with an explicit carry: a missing cell takes the nearest
preceding defined value, a leading run of missing cells stays missing. -/
def ffillAux (carry : Option ℚ) : List (Option ℚ) → List (Option ℚ)
  | [] => []
  | none :: rest => carry :: ffillAux carry rest
  | some x :: rest => some x :: ffillAux (some x) rest

/-- `Series.ffill`: forward fill starting with no carried value. -/
def ffillList (l : List (Option ℚ)) : List (Option ℚ) :=
  ffillAux none l

/-- Elementwise `series * c` (NaN stays NaN). -/
def sMul (l : List (Option ℚ)) (c : ℚ) : List (Option ℚ) :=
  l.map (Option.map (fun x => x * c))

/-- Elementwise `series / c` (NaN stays NaN). -/
def sDivC (l : List (Option ℚ)) (c : ℚ) : List (Option ℚ) :=
  l.map (Option.map (fun x => x / c))

/-- Elementwise `c + series` (NaN stays NaN). -/
def sAddL (c : ℚ) (l : List (Option ℚ)) : List (Option ℚ) :=
  l.map (Option.map (fun x => c + x))

/-- Elementwise `series - c` (NaN stays NaN). -/
def sSub (l : List (Option ℚ)) (c : ℚ) : List (Option ℚ) :=
  l.map (Option.map (fun x => x - c))

/-- `Series.pct_change()`: `r[i] = v[i] / v[i-1] - 1`, with `r[0]` missing.
The default `fill_method` of pandas pads the series (forward fill) before
differencing, and a division involving a missing operand is missing. -/
def pct_change (l : List (Option ℚ)) : List (Option ℚ) :=
  let f := ffillList l
  (List.range l.length).map fun i =>
    if i = 0 then none
    else
      match f.getD (i - 1) none, f.getD i none with
      | some p, some c => some (c / p - 1)
      | _, _ => none

/-- `Series.cumprod()` with the default `skipna=True`: the running product
ignores missing cells, and the output is missing exactly where the input is. -/
def cumprodAux (acc : ℚ) : List (Option ℚ) → List (Option ℚ)
  | [] => []
  | none :: rest => none :: cumprodAux acc rest
  | some x :: rest => some (acc * x) :: cumprodAux (acc * x) rest

/-- `Series.cumprod()` starting from the neutral accumulator. -/
def cumprodList (l : List (Option ℚ)) : List (Option ℚ) :=
  cumprodAux 1 l

/-- The trailing window of `w` cells ending at position `i` inclusive. -/
def trailingWindow {α : Type} (w i : ℕ) (l : List α) : List α :=
  (l.take (i + 1)).drop (i + 1 - w)

/-- `Series.rolling(window=w).agg(f)` with the default `min_periods = w`:
the result at `i` is defined only when the trailing window holds `w` cells
and every one of them is defined; otherwise it is missing. -/
def rollingApply (w : ℕ) (f : List ℚ → ℚ) (l : List (Option ℚ)) : List (Option ℚ) :=
  (List.range l.length).map fun i =>
    let win := trailingWindow w i l
    if win.length = w ∧ win.all Option.isSome then some (f win.reduceOption)
    else none

/-- Arithmetic mean of a list of rationals (`rolling(...).mean()` applies this
to each full window). -/
def meanQ (l : List ℚ) : ℚ :=
  l.sum / (l.length : ℚ)

/-- `Series.dt` day-of-week attribute on a day-count timestamp: day 0
(1970-01-01) was a Thursday and pandas counts Monday as 0. -/
def dayofweekQ (t : ℚ) : ℚ :=
  (((⌊t⌋ + 3) % 7 : ℤ) : ℚ)

/-- `Series.dt` month attribute on a day-count timestamp, by the standard
civil-from-days conversion. -/
def monthQ (t : ℚ) : ℚ :=
  let z : ℤ := ⌊t⌋ + 719468
  let era : ℤ := (if 0 ≤ z then z else z - 146096) / 146097
  let doe : ℤ := z - era * 146097
  let yoe : ℤ := (doe - doe / 1460 + doe / 36524 - doe / 146096) / 365
  let doy : ℤ := doe - (365 * yoe + yoe / 4 - yoe / 100)
  let mp : ℤ := (5 * doy + 2) / 153
  ((if mp < 10 then mp + 3 else mp - 9 : ℤ) : ℚ)

/-- `pd.to_datetime` on the timestamp column: the provider's values are
already parsed time values in the day-count model, so the conversion is the
identity on each cell. -/
def to_datetimeCol (l : List (Option ℚ)) : List (Option ℚ) :=
  l

/-- A pandas `DataFrame`: a row index and an ordered list of named columns.
A cell is `none` when the value is missing. -/
structure DataFrame where
  index : List (Option ℚ)
  cols : List (String × List (Option ℚ))
deriving DecidableEq, Repr

/-- `df.copy()`: value semantics make the defensive copy the identity here;
the aliasing structure is treated separately by the heap model below. -/
def DataFrame.copy (df : DataFrame) : DataFrame :=
  df

/-- `df.empty`: true when either axis has length zero. -/
def DataFrame.empty (df : DataFrame) : Bool :=
  df.index.isEmpty || df.cols.isEmpty

/-- Number of rows. -/
def DataFrame.nrows (df : DataFrame) : ℕ :=
  df.index.length

/-- The column names, in order. -/
def DataFrame.colNames (df : DataFrame) : List String :=
  df.cols.map (fun c => c.1)

/-- `name in df.columns`. -/
def DataFrame.hasCol (df : DataFrame) (name : String) : Bool :=
  df.cols.any (fun c => c.1 == name)

/-- `df[name]` as a total lookup: the first column carrying `name`. -/
def DataFrame.col (df : DataFrame) (name : String) : Option (List (Option ℚ)) :=
  (df.cols.find? (fun c => c.1 == name)).map (fun c => c.2)

/-- `df[name] = v`: replace the column in place when present, append it
otherwise (pandas keeps the position of an existing column). -/
def DataFrame.setCol (df : DataFrame) (name : String) (v : List (Option ℚ)) : DataFrame :=
  if df.hasCol name then
    ⟨df.index, df.cols.map (fun c => if c.1 == name then (name, v) else c)⟩
  else
    ⟨df.index, df.cols ++ [(name, v)]⟩

/-- `df.set_index(name)`: promote the named column to the row index, dropping
it from the columns; a missing column raises `KeyError`. -/
def DataFrame.set_index (df : DataFrame) (name : String) : Except String DataFrame :=
  match df.col name with
  | none => Except.error ("KeyError: " ++ name)
  | some v => Except.ok ⟨v, df.cols.filter (fun c => !(c.1 == name))⟩

/-- `df.ffill()`: forward fill every column along the index. -/
def dfFfill (df : DataFrame) : DataFrame :=
  ⟨df.index, df.cols.map (fun c => (c.1, ffillList c.2))⟩

/-- Well-formedness: every column has exactly one cell per index entry. -/
def DataFrame.WF (df : DataFrame) : Prop :=
  ∀ c ∈ df.cols, c.2.length = df.index.length

instance (df : DataFrame) : Decidable df.WF := by
  unfold DataFrame.WF
  infer_instance

/-- `process_time_series` (the Normalizer): `None`/empty passthrough,
defensive copy, timestamp parsing when a `Date` column exists, promotion of
`Date` to the index, forward fill, and the two calendar-derived columns. -/
def process_time_series (odf : Option DataFrame) : Except String (Option DataFrame) :=
  match odf with
  | none => Except.ok none
  | some df =>
    if df.empty then Except.ok none
    else
      let p := df.copy
      let p :=
        match p.col "Date" with
        | some d => p.setCol "Date" (to_datetimeCol d)
        | none => p
      match p.set_index "Date" with
      | Except.error e => Except.error e
      | Except.ok p2 =>
        let p3 := dfFfill p2
        let p4 := p3.setCol "DayOfWeek" (p3.index.map (Option.map dayofweekQ))
        let p5 := p4.setCol "Month" (p4.index.map (Option.map monthQ))
        Except.ok (some p5)

/-- `calculate_basic_metrics` (the Metric Calculator): `None`/empty
passthrough, defensive copy, then the derived columns in source order.
`stdFn` abstracts the standard-deviation aggregation that pandas applies to
each full rolling window.  The source re-reads the `Daily_Return` and
`Cum_Return` columns it has just assigned; those read-backs are the local
values `dr` and `cum`. -/
def calculate_basic_metrics (stdFn : List ℚ → ℚ) (odf : Option DataFrame) :
    Except String (Option DataFrame) :=
  match odf with
  | none => Except.ok none
  | some df =>
    if df.empty then Except.ok none
    else
      let m := df.copy
      match m.col "Close" with
      | none => Except.error "KeyError: Close"
      | some close =>
        let dr := sMul (pct_change close) 100
        let m := m.setCol "Daily_Return" dr
        let cum := sSub (cumprodList (sAddL 1 (sDivC dr 100))) 1
        let m := m.setCol "Cum_Return" cum
        let m := m.setCol "Cum_Return" (sMul cum 100)
        let m := m.setCol "Volatility_20d" (rollingApply 20 stdFn dr)
        match m.col "Volume" with
        | none => Except.error "KeyError: Volume"
        | some volume =>
          let m := m.setCol "Volume_Change" (sMul (pct_change volume) 100)
          let m := m.setCol "5d_MA" (rollingApply 5 meanQ close)
          let m := m.setCol "20d_MA" (rollingApply 20 meanQ close)
          let m := m.setCol "50d_MA" (rollingApply 50 meanQ close)
          Except.ok (some m)

/-!
Heap model.  Python names are references to heap objects; `df.copy()`
allocates a fresh object, a column assignment `df[c] = v` mutates the object
in place, and a rebinding such as `df = df.set_index(...)` points the name at
a freshly allocated result.  The frame claim (the input object is unchanged)
is stated against this model, where aliasing would be representable.
-/

/-- A heap of `DataFrame` objects addressed by allocation order. -/
structure Heap where
  objs : List DataFrame
deriving DecidableEq, Repr

/-- Dereference. -/
def Heap.get (h : Heap) (r : ℕ) : Option DataFrame :=
  h.objs[r]?

/-- The reference a fresh allocation will receive. -/
def Heap.fresh (h : Heap) : ℕ :=
  h.objs.length

/-- Allocate a fresh object (its reference is `Heap.fresh`). -/
def Heap.alloc (h : Heap) (d : DataFrame) : Heap :=
  ⟨h.objs ++ [d]⟩

/-- Overwrite the object at a reference in place. -/
def Heap.set (h : Heap) (r : ℕ) (d : DataFrame) : Heap :=
  ⟨h.objs.set r d⟩

/-- `process_time_series` against the heap model: the parameter is a
reference, `df.copy()` allocates, column assignments mutate the copy in
place, and the rebinding statements (`set_index`, `ffill`) point the local
name at freshly allocated results. -/
def process_time_series_heap (h : Heap) (odf : Option ℕ) :
    Heap × Except String (Option ℕ) :=
  match odf with
  | none => (h, Except.ok none)
  | some r =>
    match h.get r with
    | none => (h, Except.error "invalid reference")
    | some df =>
      if df.empty then (h, Except.ok none)
      else
        let p := h.fresh
        let h1 := h.alloc df.copy
        let v1 :=
          match df.copy.col "Date" with
          | some d => df.copy.setCol "Date" (to_datetimeCol d)
          | none => df.copy
        let h2 := h1.set p v1
        match v1.set_index "Date" with
        | Except.error e => (h2, Except.error e)
        | Except.ok v2 =>
          let h3 := h2.alloc v2
          let v3 := dfFfill v2
          let p3 := h3.fresh
          let h4 := h3.alloc v3
          let v4 := v3.setCol "DayOfWeek" (v3.index.map (Option.map dayofweekQ))
          let h5 := h4.set p3 v4
          let v5 := v4.setCol "Month" (v4.index.map (Option.map monthQ))
          let h6 := h5.set p3 v5
          (h6, Except.ok (some p3))

/-- `calculate_basic_metrics` against the heap model: one allocation for the
defensive copy, then every derived column mutates that copy in place. -/
def calculate_basic_metrics_heap (stdFn : List ℚ → ℚ) (h : Heap) (odf : Option ℕ) :
    Heap × Except String (Option ℕ) :=
  match odf with
  | none => (h, Except.ok none)
  | some r =>
    match h.get r with
    | none => (h, Except.error "invalid reference")
    | some df =>
      if df.empty then (h, Except.ok none)
      else
        let p := h.fresh
        let h1 := h.alloc df.copy
        match df.copy.col "Close" with
        | none => (h1, Except.error "KeyError: Close")
        | some close =>
          let dr := sMul (pct_change close) 100
          let v1 := df.copy.setCol "Daily_Return" dr
          let h2 := h1.set p v1
          let cum := sSub (cumprodList (sAddL 1 (sDivC dr 100))) 1
          let v2 := v1.setCol "Cum_Return" cum
          let h3 := h2.set p v2
          let v3 := v2.setCol "Cum_Return" (sMul cum 100)
          let h4 := h3.set p v3
          let v4 := v3.setCol "Volatility_20d" (rollingApply 20 stdFn dr)
          let h5 := h4.set p v4
          match v4.col "Volume" with
          | none => (h5, Except.error "KeyError: Volume")
          | some volume =>
            let v5 := v4.setCol "Volume_Change" (sMul (pct_change volume) 100)
            let h6 := h5.set p v5
            let v6 := v5.setCol "5d_MA" (rollingApply 5 meanQ close)
            let h7 := h6.set p v6
            let v7 := v6.setCol "20d_MA" (rollingApply 20 meanQ close)
            let h8 := h7.set p v7
            let v8 := v7.setCol "50d_MA" (rollingApply 50 meanQ close)
            let h9 := h8.set p v8
            (h9, Except.ok (some p))

/-!
Specification-side definitions.  Each follows the spec's words (§4.3 of the
design document) and is compared with the source-derived pipeline above in
the refinement theorems.
-/

/-- Follows the spec's words: `DailyReturn[i] = (Close[i]/Close[i-1] - 1) *
100` for `i > 0`, undefined at `i = 0`. -/
def spec_dailyReturn (closes : List ℚ) : List (Option ℚ) :=
  (List.range closes.length).map fun i =>
    if 0 < i then some ((closes.getD i 0 / closes.getD (i - 1) 0 - 1) * 100)
    else none

/-- Follows the spec's words: `CumReturn[i]` is the product over `k = 1..i` of
`1 + DailyReturn[k]/100`, minus one, scaled to percent; undefined at `i = 0`. -/
def spec_cumReturn (closes : List ℚ) : List (Option ℚ) :=
  (List.range closes.length).map fun i =>
    if 0 < i then
      some ((((List.range i).map fun j =>
        1 + ((closes.getD (j + 1) 0 / closes.getD j 0 - 1) * 100) / 100).prod - 1) * 100)
    else none

/-- Follows the spec's words: the `w`-day moving average at `i` is the
arithmetic mean of `Close` over the trailing `w` rows ending at `i`
inclusive, undefined while the window is not fully populated (`i < w - 1`). -/
def spec_movingAverage (w : ℕ) (closes : List ℚ) : List (Option ℚ) :=
  (List.range closes.length).map fun i =>
    if w - 1 ≤ i then
      some (((closes.take (i + 1)).drop (i + 1 - w)).sum / (w : ℚ))
    else none

/-- The amended volatility column: `stdFn` of the trailing 20 daily returns
ending at `i`, defined exactly for `i ≥ 20` (the window ending at `i = 19`
still contains the undefined `DailyReturn[0]`). -/
def spec_volatilityAmended (stdFn : List ℚ → ℚ) (closes : List ℚ) : List (Option ℚ) :=
  (List.range closes.length).map fun i =>
    if 20 ≤ i then
      some (stdFn ((List.range 20).map fun k =>
        (closes.getD (i - 19 + k) 0 / closes.getD (i - 19 + k - 1) 0 - 1) * 100))
    else none

/-- A raw series is valid when it is well-formed, carries a `Date` column,
and its timestamps are strictly increasing (the provider emits one row per
trading timestamp, in chronological order). -/
def strictlyIncreasing : List (Option ℚ) → Bool
  | [] => true
  | [_] => true
  | a :: b :: rest =>
    (match a, b with
     | some x, some y => decide (x < y)
     | _, _ => false) && strictlyIncreasing (b :: rest)

/-- Validity of a raw input per the spec's Raw Series data model. -/
def RawValid (df : DataFrame) : Prop :=
  df.WF ∧ ∃ dates, df.col "Date" = some dates ∧ strictlyIncreasing dates = true

/-- The frame produced by the Normalizer on a non-empty input whose `Date`
column holds `dates` (used to state the run lemma; equal to what
`process_time_series` returns on such an input). -/
def normalizeOut (df : DataFrame) (dates : List (Option ℚ)) : DataFrame :=
  let p := df.copy.setCol "Date" (to_datetimeCol dates)
  let p2 : DataFrame := ⟨to_datetimeCol dates, p.cols.filter (fun c => !(c.1 == "Date"))⟩
  let p3 := dfFfill p2
  let p4 := p3.setCol "DayOfWeek" (p3.index.map (Option.map dayofweekQ))
  p4.setCol "Month" (p4.index.map (Option.map monthQ))

/-- The running product of a list of factors, starting from `acc` (the
defined cells of `cumprod`). -/
def scanMul (acc : ℚ) : List ℚ → List ℚ
  | [] => []
  | x :: rest => (acc * x) :: scanMul (acc * x) rest

/-- Cell `i` of column `name` of a pipeline result: `some c` when the run
succeeded, produced a frame, and the column exists — `c` is then the cell
(`none` for an undefined value); `none` when the run failed, returned
Absent, or lacks the column. -/
def colCell (r : Except String (Option DataFrame)) (name : String) (i : ℕ) :
    Option (Option ℚ) :=
  match r with
  | Except.ok (some out) => (out.col name).map (fun l => l.getD i none)
  | _ => none

/-- Witness frame: a two-row raw series with increasing dates. -/
def dfRawW : DataFrame :=
  ⟨[some 0, some 1], [("Date", [some 10, some 11]), ("Close", [some 5, some 6])]⟩

/-- Witness frame: a two-row normalized series with `Close` and `Volume`. -/
def dfW : DataFrame :=
  ⟨[some 0, some 1], [("Close", [some 1, some 2]), ("Volume", [some 3, some 4])]⟩

/-- A 20-row frame with fully defined `Close` and `Volume` columns, used to
probe the volatility window boundary. -/
def dfC2 : DataFrame :=
  ⟨(List.range 20).map (fun i => some (i : ℚ)),
   [("Close", (List.range 20).map (fun _ => some 1)),
    ("Volume", (List.range 20).map (fun _ => some 1))]⟩

/-- The frame produced by the Metric Calculator on a non-empty input whose
`Close` and `Volume` columns hold `close` and `volume` (used to state the
calculator's run lemma). -/
def calcOut (stdFn : List ℚ → ℚ) (df : DataFrame) (close volume : List (Option ℚ)) :
    DataFrame :=
  let dr := sMul (pct_change close) 100
  let cum := sSub (cumprodList (sAddL 1 (sDivC dr 100))) 1
  ((((((df.copy.setCol "Daily_Return" dr).setCol "Cum_Return" cum).setCol
    "Cum_Return" (sMul cum 100)).setCol "Volatility_20d"
    (rollingApply 20 stdFn dr)).setCol "Volume_Change"
    (sMul (pct_change volume) 100)).setCol "5d_MA"
    (rollingApply 5 meanQ close)).setCol "20d_MA"
    (rollingApply 20 meanQ close) |>.setCol "50d_MA" (rollingApply 50 meanQ close)

/-! Basic facts about the series primitives. -/

theorem ffillAux_length (c : Option ℚ) (l : List (Option ℚ)) :
    (ffillAux c l).length = l.length := by
  induction l generalizing c with
  | nil => rfl
  | cons x rest ih => cases x <;> simp [ffillAux, ih]

theorem ffillList_length (l : List (Option ℚ)) : (ffillList l).length = l.length :=
  ffillAux_length none l

theorem ffillAux_map_some (c : Option ℚ) (l : List ℚ) :
    ffillAux c (l.map some) = l.map some := by
  induction l generalizing c with
  | nil => rfl
  | cons x rest ih => simp [ffillAux, ih]

theorem ffillList_map_some (l : List ℚ) : ffillList (l.map some) = l.map some :=
  ffillAux_map_some none l

theorem ffillAux_idem (c : Option ℚ) (l : List (Option ℚ)) :
    ffillAux c (ffillAux c l) = ffillAux c l := by
  induction l generalizing c with
  | nil => rfl
  | cons x rest ih =>
    cases x with
    | some v => simp [ffillAux, ih]
    | none =>
      cases c with
      | none => simp [ffillAux, ih]
      | some w => simp [ffillAux, ih]

theorem ffillList_idem (l : List (Option ℚ)) : ffillList (ffillList l) = ffillList l :=
  ffillAux_idem none l

theorem reduceOption_map_some (l : List ℚ) : (l.map some).reduceOption = l := by
  induction l with
  | nil => rfl
  | cons x rest ih => simp [List.reduceOption_cons_of_some, ih]

theorem getElem?_range_map {α : Type} (f : ℕ → α) (n i : ℕ) (h : i < n) :
    ((List.range n).map f)[i]? = some (f i) := by
  simp [List.getElem?_map, List.getElem?_range h]

theorem getD_map_some (l : List ℚ) (k : ℕ) (hk : k < l.length) :
    (l.map some).getD k none = some (l.getD k 0) := by
  simp [List.getD_eq_getElem?_getD, List.getElem?_eq_getElem, hk]

/-! Column-access algebra for the `DataFrame` operations.  The replace/append
behavior of `setCol` is characterized first at the level of raw column lists. -/

theorem find?_replace_self (n : String) (v : List (Option ℚ))
    (l : List (String × List (Option ℚ))) (h : l.any (fun c => c.1 == n) = true) :
    (l.map (fun c => if c.1 == n then (n, v) else c)).find? (fun c => c.1 == n) =
      some (n, v) := by
  induction l with
  | nil => simp at h
  | cons d t ih =>
    cases hd : (d.1 == n) with
    | true =>
      rw [List.map_cons, if_pos hd]
      exact List.find?_cons_of_pos _ (by simp)
    | false =>
      rw [List.map_cons, if_neg (by simp [hd])]
      rw [List.find?_cons_of_neg _ (by simp [hd])]
      exact ih (by simpa [List.any_cons, hd] using h)

theorem find?_replace_ne (n m : String) (v : List (Option ℚ))
    (hnm : (n == m) = false) (l : List (String × List (Option ℚ))) :
    (l.map (fun c => if c.1 == n then (n, v) else c)).find? (fun c => c.1 == m) =
      l.find? (fun c => c.1 == m) := by
  induction l with
  | nil => rfl
  | cons d t ih =>
    cases hd : (d.1 == n) with
    | true =>
      have hd1 : d.1 = n := by simpa using hd
      have hdm : (d.1 == m) = false := by rw [hd1]; exact hnm
      rw [List.map_cons, if_pos hd]
      rw [List.find?_cons_of_neg _ (by simp [hnm])]
      rw [List.find?_cons_of_neg _ (by simp [hdm])]
      exact ih
    | false =>
      rw [List.map_cons, if_neg (by simp [hd])]
      cases hdm : (d.1 == m) with
      | true =>
        rw [List.find?_cons_of_pos _ (by simp [hdm]),
          List.find?_cons_of_pos _ (by simp [hdm])]
      | false =>
        rw [List.find?_cons_of_neg _ (by simp [hdm]),
          List.find?_cons_of_neg _ (by simp [hdm])]
        exact ih

theorem hasCol_iff_col_isSome (df : DataFrame) (n : String) :
    df.hasCol n = true ↔ ∃ v, df.col n = some v := by
  unfold DataFrame.hasCol DataFrame.col
  constructor
  · intro h
    rcases List.any_eq_true.mp h with ⟨c, hc, hcn⟩
    have : (df.cols.find? (fun c => c.1 == n)).isSome := by
      exact List.find?_isSome.mpr ⟨c, hc, hcn⟩
    rcases Option.isSome_iff_exists.mp this with ⟨c', hc'⟩
    exact ⟨c'.2, by simp [hc']⟩
  · rintro ⟨v, hv⟩
    rcases Option.map_eq_some'.mp hv with ⟨c, hc, rfl⟩
    have h1 : c ∈ df.cols := List.mem_of_find?_eq_some hc
    have h2 := List.find?_some hc
    exact List.any_eq_true.mpr ⟨c, h1, h2⟩

theorem index_setCol (df : DataFrame) (n : String) (v : List (Option ℚ)) :
    (df.setCol n v).index = df.index := by
  unfold DataFrame.setCol
  split <;> rfl

theorem col_setCol_self (df : DataFrame) (n : String) (v : List (Option ℚ)) :
    (df.setCol n v).col n = some v := by
  unfold DataFrame.setCol
  by_cases h : df.hasCol n = true
  · rw [if_pos h]
    unfold DataFrame.col
    rw [find?_replace_self n v df.cols h]
    rfl
  · rw [if_neg h]
    unfold DataFrame.col
    have hnone : df.cols.find? (fun c => c.1 == n) = none := by
      rw [List.find?_eq_none]
      intro c hc hcn
      exact h (List.any_eq_true.mpr ⟨c, hc, hcn⟩)
    show ((df.cols ++ [(n, v)]).find? (fun c => c.1 == n)).map (fun c => c.2) = some v
    rw [List.find?_append, hnone]
    simp

theorem col_setCol_ne (df : DataFrame) (n m : String) (v : List (Option ℚ))
    (hnm : (n == m) = false) : (df.setCol n v).col m = df.col m := by
  unfold DataFrame.setCol
  by_cases h : df.hasCol n = true
  · rw [if_pos h]
    unfold DataFrame.col
    rw [find?_replace_ne n m v hnm df.cols]
  · rw [if_neg h]
    unfold DataFrame.col
    show ((df.cols ++ [(n, v)]).find? (fun c => c.1 == m)).map (fun c => c.2) =
      (df.cols.find? (fun c => c.1 == m)).map (fun c => c.2)
    rw [List.find?_append]
    have : [(n, v)].find? (fun c => c.1 == m) = none := by
      simp [List.find?_cons, hnm]
    rw [this]
    simp

theorem replace_fst_eq (n : String) (v : List (Option ℚ))
    (c : String × List (Option ℚ)) :
    (if c.1 == n then (n, v) else c).1 = c.1 := by
  cases hc : (c.1 == n) with
  | true =>
    have h1 : c.1 = n := by simpa using hc
    rw [if_pos rfl]
    exact h1.symm
  | false => rw [if_neg (by simp)]

theorem hasCol_setCol (df : DataFrame) (n m : String) (v : List (Option ℚ)) :
    (df.setCol n v).hasCol m = (df.hasCol m || n == m) := by
  unfold DataFrame.setCol
  by_cases h : df.hasCol n = true
  · rw [if_pos h]
    unfold DataFrame.hasCol
    rw [List.any_map]
    have hpt : ((fun c : String × List (Option ℚ) => c.1 == m) ∘
        fun c => if c.1 == n then (n, v) else c) =
        fun c : String × List (Option ℚ) => c.1 == m := by
      funext c
      simp only [Function.comp]
      rw [replace_fst_eq]
    rw [hpt]
    cases hnm : (n == m) with
    | true =>
      have hn : n = m := by simpa using hnm
      subst hn
      unfold DataFrame.hasCol at h
      rw [h, Bool.true_or]
    | false => rw [Bool.or_false]
  · rw [if_neg h]
    unfold DataFrame.hasCol
    show (df.cols ++ [(n, v)]).any (fun c => c.1 == m) =
      (df.cols.any (fun c => c.1 == m) || (n == m))
    rw [List.any_append]
    simp

theorem index_dfFfill (df : DataFrame) : (dfFfill df).index = df.index :=
  rfl

theorem col_dfFfill (df : DataFrame) (m : String) :
    (dfFfill df).col m = (df.col m).map ffillList := by
  unfold dfFfill DataFrame.col
  rw [List.find?_map]
  have hpt : ((fun c : String × List (Option ℚ) => c.1 == m) ∘
      fun c : String × List (Option ℚ) => (c.1, ffillList c.2)) =
      fun c : String × List (Option ℚ) => c.1 == m := rfl
  rw [hpt]
  cases df.cols.find? (fun c => c.1 == m) <;> rfl

theorem colNames_dfFfill (df : DataFrame) : (dfFfill df).colNames = df.colNames := by
  unfold dfFfill DataFrame.colNames
  rw [List.map_map]
  rfl

theorem hasCol_dfFfill (df : DataFrame) (m : String) :
    (dfFfill df).hasCol m = df.hasCol m := by
  unfold dfFfill DataFrame.hasCol
  rw [List.any_map]
  rfl

theorem set_index_of_col (df : DataFrame) (n : String) (v : List (Option ℚ))
    (h : df.col n = some v) :
    df.set_index n = Except.ok ⟨v, df.cols.filter (fun c => !(c.1 == n))⟩ := by
  unfold DataFrame.set_index
  rw [h]

theorem mem_colNames_setCol (df : DataFrame) (n m : String) (v : List (Option ℚ)) :
    m ∈ (df.setCol n v).colNames ↔ m ∈ df.colNames ∨ m = n := by
  unfold DataFrame.setCol DataFrame.colNames
  by_cases h : df.hasCol n = true
  · rw [if_pos h]
    show m ∈ (df.cols.map (fun c => if c.1 == n then (n, v) else c)).map
      (fun c => c.1) ↔ _
    rw [List.map_map]
    constructor
    · intro hm
      rcases List.mem_map.mp hm with ⟨c, hc, hcm⟩
      have : (if c.1 == n then (n, v) else c).1 = c.1 := replace_fst_eq n v c
      rw [Function.comp] at hcm
      rw [this] at hcm
      exact Or.inl (List.mem_map.mpr ⟨c, hc, hcm⟩)
    · intro hm
      rcases hm with hm | hm2
      · rcases List.mem_map.mp hm with ⟨c, hc, hcm⟩
        refine List.mem_map.mpr ⟨c, hc, ?_⟩
        rw [Function.comp]
        rw [replace_fst_eq n v c]
        exact hcm
      · rcases List.any_eq_true.mp h with ⟨c, hc, hcn⟩
        refine List.mem_map.mpr ⟨c, hc, ?_⟩
        rw [Function.comp]
        rw [replace_fst_eq n v c]
        have hc1 : c.1 = n := by simpa using hcn
        exact hc1.trans hm2.symm
  · rw [if_neg h]
    show m ∈ (df.cols ++ [(n, v)]).map (fun c => c.1) ↔ _
    rw [List.map_append]
    simp [eq_comm]

theorem length_col_of_WF (df : DataFrame) (n : String) (v : List (Option ℚ))
    (hwf : df.WF) (h : df.col n = some v) : v.length = df.index.length := by
  unfold DataFrame.col at h
  rcases Option.map_eq_some'.mp h with ⟨c, hc, rfl⟩
  exact hwf c (List.mem_of_find?_eq_some hc)

/-- Running the Normalizer on a non-empty frame with a `Date` column yields
exactly `normalizeOut df dates`. -/
theorem process_time_series_run (df : DataFrame) (dates : List (Option ℚ))
    (hdate : df.col "Date" = some dates) (hne : df.empty = false) :
    process_time_series (some df) = Except.ok (some (normalizeOut df dates)) := by
  simp only [process_time_series]
  rw [hne]
  rw [if_neg (by simp)]
  have hdate2 : df.copy.col "Date" = some dates := hdate
  rw [hdate2]
  have hset : (df.copy.setCol "Date" (to_datetimeCol dates)).col "Date" =
      some (to_datetimeCol dates) := col_setCol_self _ _ _
  rw [set_index_of_col _ _ _ hset]
  rfl

theorem index_normalizeOut (df : DataFrame) (dates : List (Option ℚ)) :
    (normalizeOut df dates).index = dates := by
  unfold normalizeOut
  rw [index_setCol, index_setCol]
  rfl

theorem mem_names_filter_ne (l : List (String × List (Option ℚ))) (n m : String) :
    m ∈ (l.filter (fun c => !(c.1 == n))).map (fun c => c.1) ↔
      m ∈ l.map (fun c => c.1) ∧ ¬m = n := by
  constructor
  · intro hm
    rcases List.mem_map.mp hm with ⟨c, hc, hcm⟩
    rcases List.mem_filter.mp hc with ⟨hcl, hcp⟩
    refine ⟨List.mem_map.mpr ⟨c, hcl, hcm⟩, ?_⟩
    intro hmn
    have hcn : c.1 = n := hcm.trans hmn
    rw [hcn] at hcp
    simp at hcp
  · rintro ⟨hm, hmn⟩
    rcases List.mem_map.mp hm with ⟨c, hc, hcm⟩
    refine List.mem_map.mpr ⟨c, List.mem_filter.mpr ⟨hc, ?_⟩, hcm⟩
    simp [hcm, hmn]

theorem mem_colNames_normalizeOut (df : DataFrame) (dates : List (Option ℚ)) (m : String) :
    m ∈ (normalizeOut df dates).colNames ↔
      (m ∈ df.colNames ∧ ¬m = "Date") ∨ m = "DayOfWeek" ∨ m = "Month" := by
  unfold normalizeOut
  rw [mem_colNames_setCol, mem_colNames_setCol]
  have h3 : (dfFfill ⟨to_datetimeCol dates,
      (df.copy.setCol "Date" (to_datetimeCol dates)).cols.filter
        (fun c => !(c.1 == "Date"))⟩).colNames =
      ((df.copy.setCol "Date" (to_datetimeCol dates)).cols.filter
        (fun c => !(c.1 == "Date"))).map (fun c => c.1) := colNames_dfFfill _
  rw [h3]
  rw [mem_names_filter_ne]
  have h4 : (df.copy.setCol "Date" (to_datetimeCol dates)).cols.map (fun c => c.1) =
      (df.copy.setCol "Date" (to_datetimeCol dates)).colNames := rfl
  rw [h4]
  rw [mem_colNames_setCol]
  constructor
  · rintro ((⟨hm | hm, hmd⟩ | hm) | hm)
    · exact Or.inl ⟨hm, hmd⟩
    · exact absurd hm hmd
    · exact Or.inr (Or.inl hm)
    · exact Or.inr (Or.inr hm)
  · rintro (⟨hm, hmd⟩ | hm | hm)
    · exact Or.inl (Or.inl ⟨Or.inl hm, hmd⟩)
    · exact Or.inl (Or.inr hm)
    · exact Or.inr hm

/-- C5 helper: the Normalizer's output row count. -/
theorem nrows_normalizeOut (df : DataFrame) (dates : List (Option ℚ)) :
    (normalizeOut df dates).nrows = dates.length := by
  unfold DataFrame.nrows
  rw [index_normalizeOut]

/-- C5.  For every valid non-empty raw input, `process_time_series` returns a
frame with exactly as many rows as the input (no rows dropped). -/
theorem normalize_preserves_row_count (df : DataFrame)
    (hv : RawValid df) (hne : df.empty = false) :
    ∃ out, process_time_series (some df) = Except.ok (some out) ∧
      out.nrows = df.nrows := by
  rcases hv with ⟨hwf, dates, hdate, _⟩
  refine ⟨normalizeOut df dates, process_time_series_run df dates hdate hne, ?_⟩
  rw [nrows_normalizeOut]
  exact length_col_of_WF df "Date" dates hwf hdate

/-- C5 witness: the row-count theorem applied to `dfRawW`. -/
theorem normalize_preserves_row_count_witness :
    (RawValid dfRawW ∧ dfRawW.empty = false) ∧
      (∃ out, process_time_series (some dfRawW) = Except.ok (some out) ∧
        out.nrows = dfRawW.nrows) := by
  refine ⟨⟨⟨by decide, [some 10, some 11], by decide, by decide⟩, by decide⟩, ?_⟩
  exact normalize_preserves_row_count dfRawW
    ⟨by decide, [some 10, some 11], by decide, by decide⟩ (by decide)

/-- C6.  On every valid non-empty raw input the normalized frame's field set
is the original columns united with the two calendar fields (`Date` now
living as the row key), the original timestamps are recoverable as the index,
and the index is strictly increasing. -/
theorem normalize_columns_and_index (df : DataFrame)
    (hv : RawValid df) (hne : df.empty = false) :
    ∃ out, process_time_series (some df) = Except.ok (some out) ∧
      (∀ m, (m = "Date" ∨ m ∈ out.colNames) ↔
        (m ∈ df.colNames ∨ m = "DayOfWeek" ∨ m = "Month")) ∧
      df.col "Date" = some out.index ∧
      strictlyIncreasing out.index = true := by
  rcases hv with ⟨hwf, dates, hdate, hinc⟩
  refine ⟨normalizeOut df dates, process_time_series_run df dates hdate hne, ?_, ?_, ?_⟩
  · intro m
    rw [mem_colNames_normalizeOut]
    have hdatecol : "Date" ∈ df.colNames := by
      rcases (hasCol_iff_col_isSome df "Date").mpr ⟨dates, hdate⟩ with h
      rcases List.any_eq_true.mp h with ⟨c, hc, hcn⟩
      have : c.1 = "Date" := by simpa using hcn
      exact this ▸ List.mem_map.mpr ⟨c, hc, rfl⟩
    constructor
    · rintro (rfl | (⟨hm, _⟩ | hm | hm))
      · exact Or.inl hdatecol
      · exact Or.inl hm
      · exact Or.inr (Or.inl hm)
      · exact Or.inr (Or.inr hm)
    · rintro (hm | hm | hm)
      · by_cases hmd : m = "Date"
        · exact Or.inl hmd
        · exact Or.inr (Or.inl ⟨hm, hmd⟩)
      · exact Or.inr (Or.inr (Or.inl hm))
      · exact Or.inr (Or.inr (Or.inr hm))
  · rw [index_normalizeOut]
    exact hdate
  · rw [index_normalizeOut]
    exact hinc

/-- C6 witness: the column/index theorem applied to `dfRawW`. -/
theorem normalize_columns_and_index_witness :
    (RawValid dfRawW ∧ dfRawW.empty = false) ∧
      (∃ out, process_time_series (some dfRawW) = Except.ok (some out) ∧
        (∀ m, (m = "Date" ∨ m ∈ out.colNames) ↔
          (m ∈ dfRawW.colNames ∨ m = "DayOfWeek" ∨ m = "Month")) ∧
        dfRawW.col "Date" = some out.index ∧
        strictlyIncreasing out.index = true) := by
  refine ⟨⟨⟨by decide, [some 10, some 11], by decide, by decide⟩, by decide⟩, ?_⟩
  exact normalize_columns_and_index dfRawW
    ⟨by decide, [some 10, some 11], by decide, by decide⟩ (by decide)

/-- Running the Metric Calculator on a non-empty frame whose `Close` and
`Volume` columns are `close` and `volume` yields exactly `calcOut`. -/
theorem calculate_basic_metrics_run (stdFn : List ℚ → ℚ) (df : DataFrame)
    (close volume : List (Option ℚ))
    (hclose : df.col "Close" = some close) (hvol : df.col "Volume" = some volume)
    (hne : df.empty = false) :
    calculate_basic_metrics stdFn (some df) =
      Except.ok (some (calcOut stdFn df close volume)) := by
  simp only [calculate_basic_metrics]
  rw [hne]
  rw [if_neg (by simp)]
  have hclose2 : df.copy.col "Close" = some close := hclose
  have hvol2 : df.copy.col "Volume" = some volume := hvol
  split
  case _ heq =>
    rw [hclose2] at heq
    cases heq
  case _ cl heq =>
    rw [hclose2] at heq
    injection heq with heq1
    subst heq1
    split
    case _ heq2 =>
      rw [col_setCol_ne _ "Volatility_20d" "Volume" _ (by decide)] at heq2
      rw [col_setCol_ne _ "Cum_Return" "Volume" _ (by decide)] at heq2
      rw [col_setCol_ne _ "Cum_Return" "Volume" _ (by decide)] at heq2
      rw [col_setCol_ne _ "Daily_Return" "Volume" _ (by decide)] at heq2
      rw [hvol2] at heq2
      cases heq2
    case _ v heq2 =>
      rw [col_setCol_ne _ "Volatility_20d" "Volume" _ (by decide)] at heq2
      rw [col_setCol_ne _ "Cum_Return" "Volume" _ (by decide)] at heq2
      rw [col_setCol_ne _ "Cum_Return" "Volume" _ (by decide)] at heq2
      rw [col_setCol_ne _ "Daily_Return" "Volume" _ (by decide)] at heq2
      rw [hvol2] at heq2
      injection heq2 with heq3
      subst heq3
      rfl

/-- The derived columns of `calcOut`, read back by name. -/
theorem cols_calcOut (stdFn : List ℚ → ℚ) (df : DataFrame)
    (close volume : List (Option ℚ)) :
    (calcOut stdFn df close volume).col "Daily_Return" =
      some (sMul (pct_change close) 100) ∧
    (calcOut stdFn df close volume).col "Cum_Return" =
      some (sMul (sSub (cumprodList (sAddL 1
        (sDivC (sMul (pct_change close) 100) 100))) 1) 100) ∧
    (calcOut stdFn df close volume).col "Volatility_20d" =
      some (rollingApply 20 stdFn (sMul (pct_change close) 100)) ∧
    (calcOut stdFn df close volume).col "5d_MA" =
      some (rollingApply 5 meanQ close) ∧
    (calcOut stdFn df close volume).col "20d_MA" =
      some (rollingApply 20 meanQ close) ∧
    (calcOut stdFn df close volume).col "50d_MA" =
      some (rollingApply 50 meanQ close) := by
  unfold calcOut
  refine ⟨?_, ?_, ?_, ?_, ?_, ?_⟩
  · rw [col_setCol_ne _ "50d_MA" "Daily_Return" _ (by decide)]
    rw [col_setCol_ne _ "20d_MA" "Daily_Return" _ (by decide)]
    rw [col_setCol_ne _ "5d_MA" "Daily_Return" _ (by decide)]
    rw [col_setCol_ne _ "Volume_Change" "Daily_Return" _ (by decide)]
    rw [col_setCol_ne _ "Volatility_20d" "Daily_Return" _ (by decide)]
    rw [col_setCol_ne _ "Cum_Return" "Daily_Return" _ (by decide)]
    rw [col_setCol_ne _ "Cum_Return" "Daily_Return" _ (by decide)]
    exact col_setCol_self _ _ _
  · rw [col_setCol_ne _ "50d_MA" "Cum_Return" _ (by decide)]
    rw [col_setCol_ne _ "20d_MA" "Cum_Return" _ (by decide)]
    rw [col_setCol_ne _ "5d_MA" "Cum_Return" _ (by decide)]
    rw [col_setCol_ne _ "Volume_Change" "Cum_Return" _ (by decide)]
    rw [col_setCol_ne _ "Volatility_20d" "Cum_Return" _ (by decide)]
    exact col_setCol_self _ _ _
  · rw [col_setCol_ne _ "50d_MA" "Volatility_20d" _ (by decide)]
    rw [col_setCol_ne _ "20d_MA" "Volatility_20d" _ (by decide)]
    rw [col_setCol_ne _ "5d_MA" "Volatility_20d" _ (by decide)]
    rw [col_setCol_ne _ "Volume_Change" "Volatility_20d" _ (by decide)]
    exact col_setCol_self _ _ _
  · rw [col_setCol_ne _ "50d_MA" "5d_MA" _ (by decide)]
    rw [col_setCol_ne _ "20d_MA" "5d_MA" _ (by decide)]
    exact col_setCol_self _ _ _
  · rw [col_setCol_ne _ "50d_MA" "20d_MA" _ (by decide)]
    exact col_setCol_self _ _ _
  · exact col_setCol_self _ _ _

/-- C9.  The forward-fill step of the Normalizer is idempotent: forward
filling an already forward-filled frame changes nothing. -/
theorem ffill_idempotent (df : DataFrame) : dfFfill (dfFfill df) = dfFfill df := by
  unfold dfFfill
  rw [List.map_map]
  have hcomp : ((fun c : String × List (Option ℚ) => (c.1, ffillList c.2)) ∘
      fun c : String × List (Option ℚ) => (c.1, ffillList c.2)) =
      fun c : String × List (Option ℚ) => (c.1, ffillList c.2) := by
    funext c
    simp [Function.comp, ffillList_idem]
  rw [hcomp]

/-- C8.  `None` and empty inputs are passed through as Absent by both stages,
with no exception raised. -/
theorem absent_passthrough (stdFn : List ℚ → ℚ) (df : DataFrame)
    (h : df.empty = true) :
    process_time_series none = Except.ok none ∧
    calculate_basic_metrics stdFn none = Except.ok none ∧
    process_time_series (some df) = Except.ok none ∧
    calculate_basic_metrics stdFn (some df) = Except.ok none := by
  refine ⟨rfl, rfl, ?_, ?_⟩
  · simp only [process_time_series]
    rw [h]
    rw [if_pos rfl]
  · simp only [calculate_basic_metrics]
    rw [h]
    rw [if_pos rfl]

/-- C8 witness: the passthrough theorem applied to the empty frame. -/
theorem absent_passthrough_witness :
    ((⟨[], []⟩ : DataFrame).empty = true) ∧
      (process_time_series none = Except.ok none ∧
       calculate_basic_metrics (fun _ => 0) none = Except.ok none ∧
       process_time_series (some ⟨[], []⟩) = Except.ok none ∧
       calculate_basic_metrics (fun _ => 0) (some ⟨[], []⟩) = Except.ok none) :=
  ⟨by decide, absent_passthrough (fun _ => 0) ⟨[], []⟩ (by decide)⟩

/-- C7 (amended).  Every non-empty input carrying the columns the code reads
(`Date` for the Normalizer; `Close` and `Volume` for the Calculator) reaches
the normal return path of its stage. -/
theorem no_error_with_required_columns (stdFn : List ℚ → ℚ) (df df2 : DataFrame)
    (hne : df.empty = false) (hdate : df.hasCol "Date" = true)
    (hne2 : df2.empty = false) (hclose : df2.hasCol "Close" = true)
    (hvolume : df2.hasCol "Volume" = true) :
    (∃ o, process_time_series (some df) = Except.ok (some o)) ∧
    (∃ o, calculate_basic_metrics stdFn (some df2) = Except.ok (some o)) := by
  constructor
  · rcases (hasCol_iff_col_isSome df "Date").mp hdate with ⟨dates, hd⟩
    exact ⟨normalizeOut df dates, process_time_series_run df dates hd hne⟩
  · rcases (hasCol_iff_col_isSome df2 "Close").mp hclose with ⟨close, hc⟩
    rcases (hasCol_iff_col_isSome df2 "Volume").mp hvolume with ⟨volume, hv⟩
    exact ⟨calcOut stdFn df2 close volume,
      calculate_basic_metrics_run stdFn df2 close volume hc hv hne2⟩

/-- C7 counterexample: a non-empty frame lacking a `Date` column makes the
Normalizer raise `KeyError`, and one lacking a `Close` column makes the
Calculator raise `KeyError` — not every non-empty input reaches the normal
return path regardless of its columns. -/
theorem missing_columns_raise :
    process_time_series (some ⟨[some 0], [("Volume", [some 1])]⟩) =
      Except.error ("KeyError: " ++ "Date") ∧
    calculate_basic_metrics (fun _ => 0) (some ⟨[some 0], [("Volume", [some 1])]⟩) =
      Except.error "KeyError: Close" := by
  constructor
  · rfl
  · rfl

/-- C7 witness: the amended theorem applied to concrete frames that do carry
the required columns. -/
theorem no_error_with_required_columns_witness :
    (dfRawW.empty = false ∧ dfRawW.hasCol "Date" = true ∧
     dfW.empty = false ∧ dfW.hasCol "Close" = true ∧ dfW.hasCol "Volume" = true) ∧
    ((∃ o, process_time_series (some dfRawW) = Except.ok (some o)) ∧
     (∃ o, calculate_basic_metrics (fun _ => 0) (some dfW) = Except.ok (some o))) :=
  ⟨⟨by decide, by decide, by decide, by decide, by decide⟩,
    no_error_with_required_columns (fun _ => 0) dfRawW dfW (by decide) (by decide)
      (by decide) (by decide) (by decide)⟩

/-! Refinement of the derived-column formulas to the spec's definitions. -/

theorem eq_range_map_getD (l : List ℚ) :
    l = (List.range l.length).map (fun k => l.getD k 0) := by
  apply List.ext_getElem?
  intro i
  by_cases hi : i < l.length
  · rw [getElem?_range_map _ _ _ hi, List.getElem?_eq_getElem hi]
    rw [List.getD_eq_getElem?_getD, List.getElem?_eq_getElem hi]
    rfl
  · rw [List.getElem?_eq_none (Nat.le_of_not_lt hi)]
    rw [List.getElem?_eq_none]
    rw [List.length_map, List.length_range]
    exact Nat.le_of_not_lt hi

/-- Daily returns of an all-defined close series match the spec formula. -/
theorem dailyReturn_refines (closes : List ℚ) :
    sMul (pct_change (closes.map some)) 100 = spec_dailyReturn closes := by
  apply List.ext_getElem?
  intro i
  unfold sMul pct_change spec_dailyReturn
  rw [ffillList_map_some]
  rw [List.length_map]
  by_cases hi : i < closes.length
  · rw [List.getElem?_map, getElem?_range_map _ _ _ hi, getElem?_range_map _ _ _ hi]
    by_cases h0 : i = 0
    · subst h0
      rw [if_pos rfl]
      rw [if_neg (by omega)]
      rfl
    · rw [if_neg h0]
      rw [if_pos (Nat.pos_of_ne_zero h0)]
      rw [getD_map_some _ _ (by omega), getD_map_some _ _ hi]
      rfl
  · rw [List.getElem?_map,
      List.getElem?_eq_none (by rw [List.length_map, List.length_range]; omega),
      List.getElem?_eq_none (by rw [List.length_map, List.length_range]; omega)]
    rfl

/-- A trailing window over a positionwise-defined list, in closed form. -/
theorem trailingWindow_range_map {α : Type} (g : ℕ → α) (w i n : ℕ)
    (hin : i < n) (hw : w ≤ i + 1) :
    trailingWindow w i ((List.range n).map g) =
      (List.range w).map (fun k => g (i + 1 - w + k)) := by
  apply List.ext_getElem?
  intro j
  unfold trailingWindow
  rw [List.getElem?_drop]
  by_cases hj : j < w
  · rw [List.getElem?_take_of_lt (by omega)]
    rw [getElem?_range_map _ _ _ (by omega), getElem?_range_map _ _ _ hj]
  · rw [List.getElem?_eq_none, List.getElem?_eq_none]
    · rw [List.length_map, List.length_range]
      omega
    · rw [List.length_take, List.length_map, List.length_range]
      omega

theorem length_trailingWindow {α : Type} (w i : ℕ) (l : List α) (hi : i < l.length) :
    (trailingWindow w i l).length = min w (i + 1) := by
  unfold trailingWindow
  rw [List.length_drop, List.length_take]
  omega

/-- Rolling means of an all-defined close series match the spec's
moving-average formula. -/
theorem movingAverage_refines (w : ℕ) (closes : List ℚ) :
    rollingApply w meanQ (closes.map some) = spec_movingAverage w closes := by
  apply List.ext_getElem?
  intro i
  unfold rollingApply spec_movingAverage
  rw [List.length_map]
  by_cases hi : i < closes.length
  · rw [getElem?_range_map _ _ _ hi, getElem?_range_map _ _ _ hi]
    by_cases hw : w ≤ i + 1
    · have hwin : trailingWindow w i (closes.map some) =
          ((List.range w).map (fun k => closes.getD (i + 1 - w + k) 0)).map some := by
        conv_rhs => rw [List.map_map]
        conv_lhs => rw [eq_range_map_getD closes]
        conv_lhs => rw [List.map_map]
        exact trailingWindow_range_map _ w i closes.length hi hw
      rw [hwin]
      have hlen : (((List.range w).map
          (fun k => closes.getD (i + 1 - w + k) 0)).map some).length = w := by
        rw [List.length_map, List.length_map, List.length_range]
      have hall : (((List.range w).map
          (fun k => closes.getD (i + 1 - w + k) 0)).map some).all Option.isSome = true := by
        rw [List.all_eq_true]
        intro x hx
        rcases List.mem_map.mp hx with ⟨k, _, rfl⟩
        rfl
      rw [if_pos ⟨hlen, hall⟩, if_pos (by omega)]
      rw [reduceOption_map_some]
      have hspecwin : (closes.take (i + 1)).drop (i + 1 - w) =
          (List.range w).map (fun k => closes.getD (i + 1 - w + k) 0) := by
        conv_lhs => rw [eq_range_map_getD closes]
        exact trailingWindow_range_map _ w i closes.length hi hw
      rw [hspecwin]
      unfold meanQ
      rw [List.length_map, List.length_range]
    · have hlen : (trailingWindow w i (closes.map some)).length = i + 1 := by
        rw [length_trailingWindow w i _ (by rw [List.length_map]; exact hi)]
        omega
      rw [if_neg (by rw [hlen]; omega), if_neg (by omega)]
  · rw [List.getElem?_eq_none (by rw [List.length_map, List.length_range]; omega),
      List.getElem?_eq_none (by rw [List.length_map, List.length_range]; omega)]

/-- The rolling standard deviation of the daily-return column matches the
amended volatility specification: the window ending at `i = 19` still
contains the undefined `DailyReturn[0]`, so the first defined cell is at
`i = 20`. -/
theorem volatility_refines (stdFn : List ℚ → ℚ) (closes : List ℚ) :
    rollingApply 20 stdFn (spec_dailyReturn closes) =
      spec_volatilityAmended stdFn closes := by
  apply List.ext_getElem?
  intro i
  unfold rollingApply spec_volatilityAmended
  rw [show (spec_dailyReturn closes).length = closes.length from by
    unfold spec_dailyReturn; rw [List.length_map, List.length_range]]
  by_cases hi : i < closes.length
  · rw [getElem?_range_map _ _ _ hi, getElem?_range_map _ _ _ hi]
    by_cases h20 : 20 ≤ i
    · have hw : 20 ≤ i + 1 := by omega
      have hwin : trailingWindow 20 i (spec_dailyReturn closes) =
          ((List.range 20).map (fun k =>
            (closes.getD (i - 19 + k) 0 / closes.getD (i - 19 + k - 1) 0 - 1) *
              100)).map some := by
        conv_rhs => rw [List.map_map]
        unfold spec_dailyReturn
        rw [trailingWindow_range_map _ 20 i closes.length hi hw]
        apply List.map_congr_left
        intro k hk
        rw [if_pos (by omega)]
        rw [show i + 1 - 20 + k = i - 19 + k from by omega]
        rfl
      rw [hwin]
      have hlen : ((((List.range 20).map (fun k =>
          (closes.getD (i - 19 + k) 0 / closes.getD (i - 19 + k - 1) 0 - 1) *
            100)).map some)).length = 20 := by
        rw [List.length_map, List.length_map, List.length_range]
      have hall : ((((List.range 20).map (fun k =>
          (closes.getD (i - 19 + k) 0 / closes.getD (i - 19 + k - 1) 0 - 1) *
            100)).map some)).all Option.isSome = true := by
        rw [List.all_eq_true]
        intro x hx
        rcases List.mem_map.mp hx with ⟨k, _, rfl⟩
        rfl
      rw [if_pos ⟨hlen, hall⟩, if_pos h20]
      rw [reduceOption_map_some]
    · by_cases hw : 20 ≤ i + 1
      · unfold spec_dailyReturn
        rw [trailingWindow_range_map _ 20 i closes.length hi hw]
        have hmem : (none : Option ℚ) ∈ (List.range 20).map (fun k =>
            if 0 < i + 1 - 20 + k then
              some ((closes.getD (i + 1 - 20 + k) 0 /
                closes.getD (i + 1 - 20 + k - 1) 0 - 1) * 100)
            else none) := by
          refine List.mem_map.mpr ⟨0, List.mem_range.mpr (by omega), ?_⟩
          rw [if_neg (by omega)]
        rw [if_neg, if_neg (by omega)]
        rintro ⟨_, ha⟩
        rw [List.all_eq_true] at ha
        have := ha none hmem
        simp at this
      · have hlen : (trailingWindow 20 i (spec_dailyReturn closes)).length = i + 1 := by
          rw [length_trailingWindow 20 i _ (by
            unfold spec_dailyReturn
            rw [List.length_map, List.length_range]
            exact hi)]
          omega
        rw [if_neg, if_neg (by omega)]
        rintro ⟨hl, _⟩
        rw [hlen] at hl
        omega
  · rw [List.getElem?_eq_none (by rw [List.length_map, List.length_range]; omega),
      List.getElem?_eq_none (by rw [List.length_map, List.length_range]; omega)]

theorem cumprodAux_map_some (a : ℚ) (ts : List ℚ) :
    cumprodAux a (ts.map some) = (scanMul a ts).map some := by
  induction ts generalizing a with
  | nil => rfl
  | cons x r ih => simp [cumprodAux, scanMul, ih]

theorem length_scanMul (a : ℚ) (ts : List ℚ) : (scanMul a ts).length = ts.length := by
  induction ts generalizing a with
  | nil => rfl
  | cons x r ih => simp [scanMul, ih]

theorem scanMul_getElem? (a : ℚ) (ts : List ℚ) (j : ℕ) (hj : j < ts.length) :
    (scanMul a ts)[j]? = some (a * (ts.take (j + 1)).prod) := by
  induction ts generalizing a j with
  | nil => simp at hj
  | cons x r ih =>
    cases j with
    | zero => simp [scanMul]
    | succ j =>
      rw [show scanMul a (x :: r) = (a * x) :: scanMul (a * x) r from rfl]
      rw [List.getElem?_cons_succ]
      rw [ih (a * x) j (by simpa using hj)]
      rw [show (x :: r).take (j + 1 + 1) = x :: r.take (j + 1) from rfl]
      rw [List.prod_cons]
      rw [mul_assoc]

/-- The cumulative-return chain on a series whose head is undefined and whose
tail is positionwise defined, in closed form: the running product ignores the
missing head and the output is missing exactly there. -/
theorem cum_chain (v : ℕ → ℚ) (m : ℕ) :
    sMul (sSub (cumprodList (sAddL 1 (sDivC
        (none :: (List.range m).map (fun j => some (v j))) 100))) 1) 100 =
      none :: (List.range m).map (fun j =>
        some ((((List.range (j + 1)).map (fun k => 1 + v k / 100)).prod - 1) * 100)) := by
  have step1 : sAddL 1 (sDivC (none :: (List.range m).map (fun j => some (v j))) 100) =
      none :: ((List.range m).map (fun j => 1 + v j / 100)).map some := by
    unfold sAddL sDivC
    rw [List.map_cons, List.map_cons, List.map_map, List.map_map, List.map_map]
    rfl
  rw [step1]
  have step2 : cumprodList (none ::
      ((List.range m).map (fun j => 1 + v j / 100)).map some) =
      none :: (scanMul 1 ((List.range m).map (fun j => 1 + v j / 100))).map some := by
    unfold cumprodList
    rw [show cumprodAux 1 (none ::
      ((List.range m).map (fun j => 1 + v j / 100)).map some) =
      none :: cumprodAux 1 (((List.range m).map (fun j => 1 + v j / 100)).map some)
      from rfl]
    rw [cumprodAux_map_some]
  rw [step2]
  unfold sMul sSub
  rw [List.map_cons, List.map_cons, List.map_map, List.map_map]
  congr 1
  apply List.ext_getElem?
  intro j
  by_cases hj : j < m
  · rw [List.getElem?_map]
    rw [getElem?_range_map _ _ _ hj]
    rw [scanMul_getElem? 1 _ j (by rw [List.length_map, List.length_range]; exact hj)]
    rw [show ((List.range m).map (fun j => 1 + v j / 100)).take (j + 1) =
        (List.range (j + 1)).map (fun k => 1 + v k / 100) from by
      rw [← List.map_take, List.take_range, Nat.min_eq_left (by omega)]]
    rw [one_mul]
    rfl
  · rw [List.getElem?_eq_none (by
      rw [List.length_map, length_scanMul, List.length_map, List.length_range]; omega)]
    rw [List.getElem?_eq_none (by rw [List.length_map, List.length_range]; omega)]

/-- The cumulative-return column (running product of one-plus-daily-return,
minus one, scaled to percent) matches the spec formula. -/
theorem cumReturn_refines (closes : List ℚ) :
    sMul (sSub (cumprodList (sAddL 1 (sDivC (spec_dailyReturn closes) 100))) 1) 100 =
      spec_cumReturn closes := by
  cases hn : closes.length with
  | zero =>
    unfold spec_dailyReturn spec_cumReturn sMul sSub cumprodList sAddL sDivC
    rw [hn]
    rfl
  | succ m =>
    have hdr : spec_dailyReturn closes = none :: (List.range m).map (fun j =>
        some ((closes.getD (j + 1) 0 / closes.getD j 0 - 1) * 100)) := by
      unfold spec_dailyReturn
      rw [hn, List.range_succ_eq_map, List.map_cons, List.map_map]
      congr 1
      apply List.map_congr_left
      intro j _
      simp only [Function.comp_apply]
      rw [if_pos (Nat.succ_pos j)]
      rfl
    have hcr : spec_cumReturn closes = none :: (List.range m).map (fun j =>
        some ((((List.range (j + 1)).map (fun k =>
          1 + (closes.getD (k + 1) 0 / closes.getD k 0 - 1) * 100 / 100)).prod - 1) *
          100)) := by
      unfold spec_cumReturn
      rw [hn, List.range_succ_eq_map, List.map_cons, List.map_map]
      congr 1
      apply List.map_congr_left
      intro j _
      simp only [Function.comp_apply]
      rw [if_pos (Nat.succ_pos j)]
    rw [hdr, hcr]
    exact cum_chain (fun j => (closes.getD (j + 1) 0 / closes.getD j 0 - 1) * 100) m

/-- C1.  On every normalized series with a fully defined `Close` column, the
augment step produces `Daily_Return[i] = (Close[i]/Close[i-1] - 1) * 100` for
every `i > 0` and leaves `Daily_Return[0]` undefined (the column equals the
spec-side `spec_dailyReturn`). -/
theorem augment_daily_return_spec (stdFn : List ℚ → ℚ) (df : DataFrame)
    (closes : List ℚ) (volume : List (Option ℚ))
    (hclose : df.col "Close" = some (closes.map some))
    (hvolume : df.col "Volume" = some volume) (hne : df.empty = false) :
    ∃ out, calculate_basic_metrics stdFn (some df) = Except.ok (some out) ∧
      out.col "Daily_Return" = some (spec_dailyReturn closes) := by
  refine ⟨calcOut stdFn df (closes.map some) volume,
    calculate_basic_metrics_run stdFn df _ volume hclose hvolume hne, ?_⟩
  rw [(cols_calcOut stdFn df (closes.map some) volume).1]
  rw [dailyReturn_refines]

/-- C1 witness: the daily-return theorem applied to `dfW`. -/
theorem augment_daily_return_spec_witness :
    (dfW.col "Close" = some ([1, 2].map some) ∧
     dfW.col "Volume" = some [some 3, some 4] ∧ dfW.empty = false) ∧
    (∃ out, calculate_basic_metrics (fun _ => 0) (some dfW) = Except.ok (some out) ∧
      out.col "Daily_Return" = some (spec_dailyReturn [1, 2])) :=
  ⟨⟨by decide, by decide, by decide⟩,
    augment_daily_return_spec (fun _ => 0) dfW [1, 2] [some 3, some 4]
      (by decide) (by decide) (by decide)⟩

/-- C3.  On every normalized series with a fully defined `Close` column, the
augment step produces `Cum_Return[i]` equal to the product over `k = 1..i` of
`1 + Daily_Return[k]/100`, minus one, scaled to percent, for every `i > 0`,
and leaves `Cum_Return[0]` undefined (the column equals the spec-side
`spec_cumReturn`). -/
theorem augment_cum_return_spec (stdFn : List ℚ → ℚ) (df : DataFrame)
    (closes : List ℚ) (volume : List (Option ℚ))
    (hclose : df.col "Close" = some (closes.map some))
    (hvolume : df.col "Volume" = some volume) (hne : df.empty = false) :
    ∃ out, calculate_basic_metrics stdFn (some df) = Except.ok (some out) ∧
      out.col "Cum_Return" = some (spec_cumReturn closes) := by
  refine ⟨calcOut stdFn df (closes.map some) volume,
    calculate_basic_metrics_run stdFn df _ volume hclose hvolume hne, ?_⟩
  rw [(cols_calcOut stdFn df (closes.map some) volume).2.1]
  rw [dailyReturn_refines]
  rw [cumReturn_refines]

/-- C3 witness: the cumulative-return theorem applied to `dfW`. -/
theorem augment_cum_return_spec_witness :
    (dfW.col "Close" = some ([1, 2].map some) ∧
     dfW.col "Volume" = some [some 3, some 4] ∧ dfW.empty = false) ∧
    (∃ out, calculate_basic_metrics (fun _ => 0) (some dfW) = Except.ok (some out) ∧
      out.col "Cum_Return" = some (spec_cumReturn [1, 2])) :=
  ⟨⟨by decide, by decide, by decide⟩,
    augment_cum_return_spec (fun _ => 0) dfW [1, 2] [some 3, some 4]
      (by decide) (by decide) (by decide)⟩

/-- C4.  On every normalized series with a fully defined `Close` column, each
moving-average column is the trailing arithmetic mean of `Close` over its
window, undefined exactly while the window is not fully populated
(`i < w - 1`); each column equals the spec-side `spec_movingAverage`. -/
theorem augment_moving_averages_spec (stdFn : List ℚ → ℚ) (df : DataFrame)
    (closes : List ℚ) (volume : List (Option ℚ))
    (hclose : df.col "Close" = some (closes.map some))
    (hvolume : df.col "Volume" = some volume) (hne : df.empty = false) :
    ∃ out, calculate_basic_metrics stdFn (some df) = Except.ok (some out) ∧
      out.col "5d_MA" = some (spec_movingAverage 5 closes) ∧
      out.col "20d_MA" = some (spec_movingAverage 20 closes) ∧
      out.col "50d_MA" = some (spec_movingAverage 50 closes) := by
  refine ⟨calcOut stdFn df (closes.map some) volume,
    calculate_basic_metrics_run stdFn df _ volume hclose hvolume hne, ?_, ?_, ?_⟩
  · rw [(cols_calcOut stdFn df (closes.map some) volume).2.2.2.1]
    rw [movingAverage_refines]
  · rw [(cols_calcOut stdFn df (closes.map some) volume).2.2.2.2.1]
    rw [movingAverage_refines]
  · rw [(cols_calcOut stdFn df (closes.map some) volume).2.2.2.2.2]
    rw [movingAverage_refines]

/-- C4 witness: the moving-average theorem applied to `dfW`. -/
theorem augment_moving_averages_spec_witness :
    (dfW.col "Close" = some ([1, 2].map some) ∧
     dfW.col "Volume" = some [some 3, some 4] ∧ dfW.empty = false) ∧
    (∃ out, calculate_basic_metrics (fun _ => 0) (some dfW) = Except.ok (some out) ∧
      out.col "5d_MA" = some (spec_movingAverage 5 [1, 2]) ∧
      out.col "20d_MA" = some (spec_movingAverage 20 [1, 2]) ∧
      out.col "50d_MA" = some (spec_movingAverage 50 [1, 2])) :=
  ⟨⟨by decide, by decide, by decide⟩,
    augment_moving_averages_spec (fun _ => 0) dfW [1, 2] [some 3, some 4]
      (by decide) (by decide) (by decide)⟩

/-- C2 (amended).  On every normalized series with a fully defined `Close`
column, `Volatility_20d[i]` is the rolling aggregation of `Daily_Return` over
the trailing 20-row window ending at `i`, and it is undefined exactly for
`i < 20`: since `Daily_Return[0]` is undefined, the window ending at `i = 19`
holds only 19 defined observations, so the first defined cell is `i = 20`. -/
theorem augment_volatility_amended (stdFn : List ℚ → ℚ) (df : DataFrame)
    (closes : List ℚ) (volume : List (Option ℚ))
    (hclose : df.col "Close" = some (closes.map some))
    (hvolume : df.col "Volume" = some volume) (hne : df.empty = false) :
    ∃ out, calculate_basic_metrics stdFn (some df) = Except.ok (some out) ∧
      out.col "Volatility_20d" = some (spec_volatilityAmended stdFn closes) := by
  refine ⟨calcOut stdFn df (closes.map some) volume,
    calculate_basic_metrics_run stdFn df _ volume hclose hvolume hne, ?_⟩
  rw [(cols_calcOut stdFn df (closes.map some) volume).2.2.1]
  rw [dailyReturn_refines]
  rw [volatility_refines]

/-- C2 witness: the amended volatility theorem applied to `dfW`. -/
theorem augment_volatility_amended_witness :
    (dfW.col "Close" = some ([1, 2].map some) ∧
     dfW.col "Volume" = some [some 3, some 4] ∧ dfW.empty = false) ∧
    (∃ out, calculate_basic_metrics (fun _ => 0) (some dfW) = Except.ok (some out) ∧
      out.col "Volatility_20d" =
        some (spec_volatilityAmended (fun _ => 0) [1, 2])) :=
  ⟨⟨by decide, by decide, by decide⟩,
    augment_volatility_amended (fun _ => 0) dfW [1, 2] [some 3, some 4]
      (by decide) (by decide) (by decide)⟩

/-- C2 counterexample: on the 20-row series `dfC2` with every `Close` value
defined, the run succeeds and `Volatility_20d[19]` is undefined — refuting
"defined for every i ≥ 19 in any series of length ≥ 20".  (The window ending
at row 19 contains the undefined `Daily_Return[0]`, so pandas yields NaN.) -/
theorem volatility_boundary_counterexample :
    colCell (calculate_basic_metrics (fun l => l.sum) (some dfC2))
      "Volatility_20d" 19 = some none := by
  decide

/-! The frame property: neither stage mutates the caller-visible input
object.  In the heap model every write lands on the freshly allocated
defensive copy (or a later freshly allocated rebinding), never on the
argument reference. -/

theorem heap_get_lt (h : Heap) (r : ℕ) (df : DataFrame)
    (hget : h.get r = some df) : r < h.objs.length := by
  unfold Heap.get at hget
  rcases List.getElem?_eq_some_iff.mp hget with ⟨hr, _⟩
  exact hr

theorem heap_get_alloc (h : Heap) (d : DataFrame) (r : ℕ)
    (hr : r < h.objs.length) : (h.alloc d).get r = h.get r := by
  unfold Heap.alloc Heap.get
  exact List.getElem?_append_left hr

theorem heap_get_set_ne (h : Heap) (r' : ℕ) (d : DataFrame) (r : ℕ)
    (hne : r' ≠ r) : (h.set r' d).get r = h.get r := by
  unfold Heap.set Heap.get
  exact List.getElem?_set_ne hne

theorem heap_length_alloc (h : Heap) (d : DataFrame) :
    (h.alloc d).objs.length = h.objs.length + 1 := by
  unfold Heap.alloc
  rw [List.length_append]
  rfl

theorem heap_length_set (h : Heap) (r : ℕ) (d : DataFrame) :
    (h.set r d).objs.length = h.objs.length := by
  unfold Heap.set
  rw [List.length_set]

/-- C10.  Neither stage mutates its input object: after running either heap
pipeline on a reference `r`, dereferencing `r` still yields the original
frame, whatever the outcome of the run. -/
theorem pipeline_no_mutation (stdFn : List ℚ → ℚ) (h : Heap) (r : ℕ)
    (df : DataFrame) (hget : h.get r = some df) :
    ((process_time_series_heap h (some r)).1).get r = some df ∧
    ((calculate_basic_metrics_heap stdFn h (some r)).1).get r = some df := by
  have hr : r < h.objs.length := heap_get_lt h r df hget
  have hfr : h.fresh ≠ r := by
    unfold Heap.fresh
    omega
  constructor
  · simp only [process_time_series_heap, hget]
    by_cases he : df.empty = true
    · rw [if_pos he]
      exact hget
    · rw [if_neg he]
      split
      · rw [heap_get_set_ne _ _ _ _ hfr, heap_get_alloc _ _ _ hr]
        exact hget
      · rw [heap_get_set_ne, heap_get_set_ne, heap_get_alloc, heap_get_alloc,
          heap_get_set_ne _ _ _ _ hfr, heap_get_alloc _ _ _ hr]
        · exact hget
        all_goals
          simp only [Heap.fresh, heap_length_alloc, heap_length_set]
          omega
  · simp only [calculate_basic_metrics_heap, hget]
    by_cases he : df.empty = true
    · rw [if_pos he]
      exact hget
    · rw [if_neg he]
      split
      · rw [heap_get_alloc _ _ _ hr]
        exact hget
      · split
        · rw [heap_get_set_ne _ _ _ _ hfr, heap_get_set_ne _ _ _ _ hfr,
            heap_get_set_ne _ _ _ _ hfr, heap_get_set_ne _ _ _ _ hfr,
            heap_get_alloc _ _ _ hr]
          exact hget
        · rw [heap_get_set_ne _ _ _ _ hfr, heap_get_set_ne _ _ _ _ hfr,
            heap_get_set_ne _ _ _ _ hfr, heap_get_set_ne _ _ _ _ hfr,
            heap_get_set_ne _ _ _ _ hfr, heap_get_set_ne _ _ _ _ hfr,
            heap_get_set_ne _ _ _ _ hfr, heap_get_set_ne _ _ _ _ hfr,
            heap_get_alloc _ _ _ hr]
          exact hget

/-- C10 witness: the no-mutation theorem applied to a one-object heap. -/
theorem pipeline_no_mutation_witness :
    ((⟨[dfW]⟩ : Heap).get 0 = some dfW) ∧
    (((process_time_series_heap ⟨[dfW]⟩ (some 0)).1).get 0 = some dfW ∧
     ((calculate_basic_metrics_heap (fun _ => 0) ⟨[dfW]⟩ (some 0)).1).get 0 =
       some dfW) :=
  ⟨by decide, pipeline_no_mutation (fun _ => 0) ⟨[dfW]⟩ 0 dfW (by decide)⟩

end FinDash
